import Mathlib

/-!
Shallow embedding of `src/configuration/operation/stack.rs` from the
`threescale-wasm-auth` crate: the stack-machine evaluator `Stack::process`
and the signed-index arithmetic of the `indexing` module.

Modelling conventions:
* `Vec<Cow<'a, str>>` is modelled as `List String`.
* `isize` / `usize` are modelled as `Int` / `Nat`; the crate targets
  `wasm32-unknown-unknown`, so the machine word is 32 bits.  Casts that can
  wrap are made explicit (`usizeOfIsize`).
* Rust's `%` on `isize` is truncating remainder, i.e. `Int.tmod`.
* The nested operation lists of `FlatMap`, `Select` and `Cloned` are run
  through the external pipeline driver `super::process_operations`, which is
  outside this file's source.  Modelled from the spec: the driver is a
  function `apply(sequence, ops) -> Result<Value Sequence, OperationError>`;
  we represent a configured nested operation list by its denotation, a
  function `List String → Option (List String)` (`none` = the driver failed
  with some `OperationError`).
* The `Values` variant only emits a log line; the log sink is fire-and-forget
  and never fails, so the pure model passes the input through.  Its `level`
  field (an external `LogLevel`) is modelled abstractly as a `Nat`.
-/

namespace ThreescaleStack

/-- `StackError` from `stack.rs`.  `InnerOperationError` boxes an
`OperationError` in the source; the payload is never inspected here, so the
constructor is modelled without it. -/
inductive StackError where
  | NoValuesError
  | OutputNoValuesError
  | IndexOutOfBounds
  | RequirementNotSatisfied
  | InnerOperationError
  deriving DecidableEq, Repr

/-- `CloneMode` from `stack.rs` (default is `AppendResult`). -/
inductive CloneMode where
  | PrependResult
  | AppendResult
  deriving DecidableEq, Repr

/-- Denotation of a nested operation list under the external pipeline driver
`super::process_operations` (see the module comment). -/
abbrev Pipeline := List String → Option (List String)

/-- Bit width of `isize`/`usize` on the crate's `wasm32` target. -/
def isizeBits : Nat := 32

/-- `isize::MAX`. -/
def isizeMax : Int := 2 ^ (isizeBits - 1) - 1

/-- The Rust cast `x as usize` applied to an `isize` value: reinterpretation
of the two's-complement bits, i.e. reduction modulo `2 ^ isizeBits` (the
result is the unique representative in `[0, 2^isizeBits)`). -/
def usizeOfIsize (x : Int) : Nat := (x % (2 ^ isizeBits : Int)).toNat

/-- `CollectionLength::try_from(value: usize)`: converts a sequence length to
the validated non-negative `isize` magnitude stored in `CollectionLength`.
`isize::try_from` fails (with `IndexOutOfBounds`) iff the length exceeds
`isize::MAX`; the subsequent `CollectionLength::new` check `value < 0` can
then never fire. -/
def collectionLengthTryFrom (len : Nat) : Except StackError Int :=
  if (len : Int) ≤ isizeMax then .ok (len : Int) else .error .IndexOutOfBounds

/-- `CollectionLength::index_into(idx)` from the `indexing` module, for a
collection length `n` (invariant: `0 ≤ n`).  Transcription of the source:
`computed_idx` is `idx as usize` when `idx >= 0`, and `(idx % self.0) as
usize` otherwise, where `%` is Rust's truncating remainder (`Int.tmod`) and
the cast wraps; the candidate is accepted iff `computed_idx < self.0 as
usize`. -/
def index_into (n : Int) (idx : Int) : Except StackError Nat :=
  let computed : Nat :=
    if 0 ≤ idx then usizeOfIsize idx else usizeOfIsize (idx.tmod n)
  if n.toNat ≤ computed then .error .IndexOutOfBounds else .ok computed

/-- `Vec::split_off(at)`: the vector keeps `[0, at)` (first component) and
the call returns `[at, len)` (second component).  Callers in `stack.rs`
always pass `at ≤ len`. -/
def splitOff (l : List String) (at_ : Nat) : List String × List String :=
  (l.take at_, l.drop at_)

/-- `Vec::swap(i, j)` for in-range indices; out-of-range indices (which would
panic in Rust) leave the list unchanged, a case the caller in `Swap` rules
out via `index_into`. -/
def listSwap (l : List String) (i j : Nat) : List String :=
  match l.get? i, l.get? j with
  | some a, some b => (l.set i b).set j a
  | _, _ => l

/-- The `Stack` operation enum from `stack.rs`.  Nested operation lists are
represented by their pipeline denotation (see `Pipeline`); `Swap`'s fields
are named `from`/`to` in the source (`from` is a Lean keyword). -/
inductive Stack where
  | Length (min max : Nat)
  | Join (sep : String)
  | Reverse
  | Take (head tail : Option Nat)
  | Drop (head tail : Option Nat)
  | Swap (fromIdx toIdx : Int)
  | Indexes (idxs : List Int)
  | FlatMap (f : Pipeline)
  | Select (f : Pipeline)
  | Cloned (result : CloneMode) (ops : Pipeline)
  | Values (level : Nat) (id : Option String)

/-- The `match self { ... }` block of `Stack::process`, computing `res`.
Arms that `return Err(..)` in the source are the `.error` results here; the
`?` operator on the `Swap`/`Indexes` arms is the `Except` bind. -/
def processBody (op : Stack) (input : List String) :
    Except StackError (List String) :=
  match op with
  | .Length min max =>
    if input.length < min then .error .RequirementNotSatisfied
    else if max < input.length then .error .RequirementNotSatisfied
    else .ok input
  | .Join sep => .ok [String.intercalate sep input]
  | .Reverse => .ok input.reverse
  | .Take head tail =>
    let p : List String × List String :=
      match head with
      | some h => splitOff input (min h input.length)
      | none => ([], input)
    let tl : List String :=
      match tail with
      | some t => (splitOff p.2 (p.2.length - t)).2
      | none => []
    .ok (p.1 ++ tl)
  | .Drop head tail =>
    let tailVec : List String :=
      match head with
      | some h => (splitOff input (min h input.length)).2
      | none => input
    match tail with
    | some t => .ok (splitOff tailVec (tailVec.length - t)).1
    | none => .ok tailVec
  | .Swap fromIdx toIdx =>
    match collectionLengthTryFrom input.length with
    | .error e => .error e
    | .ok n =>
      if fromIdx ≠ toIdx then
        match index_into n fromIdx with
        | .error e => .error e
        | .ok i =>
          match index_into n toIdx with
          | .error e => .error e
          | .ok j => .ok (listSwap input i j)
      else .ok input
  | .Indexes idxs =>
    if idxs.isEmpty then .ok input
    else
      match collectionLengthTryFrom input.length with
      | .error e => .error e
      | .ok n =>
        idxs.mapM fun idx => (index_into n idx).map fun ci => input.getD ci ""
  | .FlatMap f =>
    match input.mapM (fun e => f [e]) with
    | none => .error .InnerOperationError
    | some r => .ok r.flatten
  | .Select f => .ok ((input.filterMap fun e => f [e]).flatten)
  | .Cloned mode f =>
    match f input with
    | none => .error .InnerOperationError
    | some v =>
      match mode with
      | .AppendResult => .ok (input ++ v)
      | .PrependResult => .ok (v ++ input)
  | .Values _ _ => .ok input

/-- `Stack::process`: the shared empty-input guard, then the per-variant
body, then the shared empty-output guard. -/
def process (op : Stack) (input : List String) :
    Except StackError (List String) :=
  if input.isEmpty then .error .NoValuesError
  else
    match processBody op input with
    | .error e => .error e
    | .ok res => if res.isEmpty then .error .OutputNoValuesError else .ok res

/-- Modelled from the spec: §4.2 index resolution as the spec words it —
a negative offset is reduced with the *mathematical* remainder (always
non-negative for a positive length), giving Ruby-style trailing addressing;
the candidate is accepted iff it lies in `[0, n)`.  This is the spec's
description of `index_into`, kept separate so the two can be compared. -/
def mathIndexResolve (n : Int) (idx : Int) : Except StackError Nat :=
  let c : Int := if 0 ≤ idx then idx else idx.emod n
  if 0 ≤ c ∧ c < n then .ok c.toNat else .error .IndexOutOfBounds

/-- Modelled from the spec: the external pipeline driver applied to the
single-element nested operation list `[Reverse]` — the driver threads the
sequence through the operations in order and returns the final sequence or
the first failure, so for one stack operation it is exactly that
operation's `process`. -/
def reversePipeline : Pipeline := fun l => (process .Reverse l).toOption

/-- On a non-empty input, `process` is the body followed by the
empty-output guard. -/
theorem process_of_ne_nil (op : Stack) (input : List String)
    (h : input ≠ []) :
    process op input =
      match processBody op input with
      | .error e => .error e
      | .ok res => if res.isEmpty then .error .OutputNoValuesError
                   else .ok res := by
  have h1 : input.isEmpty = false := List.isEmpty_eq_false.mpr h
  simp [process, h1]

/-- The only error `index_into` ever produces is `IndexOutOfBounds`. -/
theorem index_into_error_eq {n i : Int} {e : StackError}
    (h : index_into n i = .error e) : e = .IndexOutOfBounds := by
  simp only [index_into] at h
  split at h <;> split at h <;>
    first
      | exact (Except.error.inj h).symm
      | exact absurd h (by simp)

end ThreescaleStack

namespace ThreescaleStack

/-- C5: for every operation variant, `process` on an empty input sequence
fails with `NoValuesError` before any variant-specific logic (including any
nested pipeline call) runs: the guard is the first statement of `process`,
so the result is the same for every variant. -/
theorem claim_C5_empty_input_no_values (op : Stack) :
    process op [] = .error .NoValuesError := rfl

/-- C8: `Indexes([])` is the identity transform on any non-empty sequence —
the empty offset list is a select-all sentinel, never an error. -/
theorem claim_C8_indexes_empty_identity (input : List String)
    (h : input ≠ []) : process (.Indexes []) input = .ok input := by
  rw [process_of_ne_nil _ _ h]
  simp [processBody, List.isEmpty_eq_false.mpr h]

/-- Witness for C8 at `["a"]`. -/
theorem claim_C8_witness : process (.Indexes []) ["a"] = .ok ["a"] :=
  claim_C8_indexes_empty_identity ["a"] (by decide)

/-- C9: for every non-empty input and every separator, `Join(sep)` succeeds
and returns exactly one element — the values concatenated with `sep`
between them — so `Join` can never trigger the `OutputNoValues` guard. -/
theorem claim_C9_join_singleton (sep : String) (input : List String)
    (h : input ≠ []) :
    process (.Join sep) input = .ok [String.intercalate sep input] := by
  rw [process_of_ne_nil _ _ h]
  simp [processBody]

/-- Witness for C9 at `sep = "-"`, input `["a","b"]`. -/
theorem claim_C9_witness : process (.Join "-") ["a", "b"] = .ok ["a-b"] :=
  claim_C9_join_singleton "-" ["a", "b"] (by decide)

/-- C1: the claim (and the spec, and the code's own comments) call for
Ruby-style wraparound via the mathematical modulo, under which, for length
5, offset `-1` resolves to 4 and `-6` to 4 again.  The code instead applies
Rust's truncating `%`, whose negative remainder is cast to `usize` and
wraps to a huge value, so `index_into` rejects `-1` and `-6` with
`IndexOutOfBounds`; only the exact multiples of the length (such as `-5`)
and the in-range non-negative offsets survive.  `-5 ↦ 0` and `5 ↦
IndexOutOfBounds` behave as claimed. -/
theorem claim_C1_wraparound_divergence :
    mathIndexResolve 5 (-1) = .ok 4 ∧
    mathIndexResolve 5 (-6) = .ok 4 ∧
    index_into 5 (-1) = .error .IndexOutOfBounds ∧
    index_into 5 (-6) = .error .IndexOutOfBounds ∧
    index_into 5 (-5) = .ok 0 ∧
    index_into 5 5 = .error .IndexOutOfBounds :=
  ⟨rfl, rfl, rfl, rfl, rfl, rfl⟩

/-- Counterexample to C2: on input `["a"]` (length 1) the offset `1`
fails index resolution, yet `Swap{from:1,to:1}` succeeds, because the code
compares the raw offsets first (`if from != to`) and never resolves them
when they are equal. -/
theorem claim_C2_counterexample :
    index_into 1 1 = .error .IndexOutOfBounds ∧
    process (.Swap 1 1) ["a"] = .ok ["a"] :=
  ⟨rfl, rfl⟩

/-- Counterexample to C3: the claim predicts that `Take{head:2,tail:2}` on
`["a","b","c"]` takes both windows from the original sequence, overlapping
to `["a","b"] ++ ["b","c"] = ["a","b","b","c"]`; the code instead takes the
tail window from the remainder after splitting off the head block and
returns `["a","b","c"]`. -/
theorem claim_C3_counterexample :
    process (.Take (some 2) (some 2)) ["a", "b", "c"] =
      .ok ["a", "b", "c"] ∧
    (["a", "b", "c"] : List String).take 2 ++
      (["a", "b", "c"] : List String).drop (3 - 2) = ["a", "b", "b", "c"] ∧
    (["a", "b", "c"] : List String) ≠ ["a", "b", "b", "c"] :=
  ⟨rfl, rfl, by decide⟩

/-- C7: for every non-empty input, `Drop{head,tail}` removes the first
`head` elements (clamped to length, absent meaning 0) and then the last
`tail` elements measured against the post-head-drop length (absent meaning
0); when everything is removed the shared empty-output guard fails.  In
particular `Drop{head:1,tail:1}` on `["a","b","c","d"]` yields
`["b","c"]`. -/
theorem claim_C7_drop_semantics (head tail : Option Nat)
    (input : List String) (h : input ≠ []) :
    (process (.Drop head tail) input =
      (let rem := input.drop (min (head.getD 0) input.length)
       let res := rem.take (rem.length - tail.getD 0)
       if res.isEmpty then .error .OutputNoValuesError else .ok res)) ∧
    process (.Drop (some 1) (some 1)) ["a", "b", "c", "d"] =
      .ok ["b", "c"] := by
  constructor
  · rw [process_of_ne_nil _ _ h]
    cases head <;> cases tail <;>
      simp only [processBody, splitOff, Option.getD_none, Option.getD_some,
        Nat.sub_zero, List.take_length, Nat.zero_min, List.drop_zero]
  · rfl

/-- Witness for C7: the concrete `Drop{head:1,tail:1}` example. -/
theorem claim_C7_witness :
    process (.Drop (some 1) (some 1)) ["a", "b", "c", "d"] =
      .ok ["b", "c"] :=
  (claim_C7_drop_semantics (some 1) (some 1) ["a", "b", "c", "d"]
    (by decide)).2

/-- C3 amended: for every non-empty input, `Take{head,tail}` returns the
first `head` elements (clamped to length, 0 if absent) followed by the last
`tail` elements **of the remainder after the head block is split off**
(clamped to the remainder's length, 0 if absent) — not of the original
sequence, so the two windows are disjoint and elements never repeat; when
the combined result is empty the shared empty-output guard fails. -/
theorem claim_C3_take_amended (head tail : Option Nat)
    (input : List String) (h : input ≠ []) :
    (process (.Take head tail) input =
      (let hb := input.take (min (head.getD 0) input.length)
       let rem := input.drop (min (head.getD 0) input.length)
       let tb := match tail with
                 | some t => rem.drop (rem.length - t)
                 | none => []
       let res := hb ++ tb
       if res.isEmpty then .error .OutputNoValuesError else .ok res)) ∧
    process (.Take (some 2) (some 1)) ["a", "b", "c", "d"] =
      .ok ["a", "b", "d"] := by
  constructor
  · rw [process_of_ne_nil _ _ h]
    cases head <;> cases tail <;>
      simp only [processBody, splitOff, Option.getD_none, Option.getD_some,
        Nat.sub_zero, List.take_length, Nat.zero_min, List.drop_zero,
        List.take_zero]
  · rfl

/-- Witness for C3 (amended): the spec's own `Take{head:2,tail:1}`
example. -/
theorem claim_C3_witness :
    process (.Take (some 2) (some 1)) ["a", "b", "c", "d"] =
      .ok ["a", "b", "d"] :=
  (claim_C3_take_amended (some 2) (some 1) ["a", "b", "c", "d"]
    (by decide)).2

/-- C2 amended: for every non-empty input, when `from ≠ to`, `Swap`
fails with `IndexOutOfBounds` whenever either signed offset fails index
resolution (`index_into`) against the current length; when `from = to` the
offsets are never resolved, and (for lengths representable as `isize`) the
call succeeds, returning the input unchanged. -/
theorem claim_C2_swap_amended (input : List String) (fromIdx toIdx : Int)
    (hne : input ≠ []) :
    (fromIdx ≠ toIdx →
      (index_into (input.length : Int) fromIdx =
          .error .IndexOutOfBounds ∨
       index_into (input.length : Int) toIdx =
          .error .IndexOutOfBounds) →
      process (.Swap fromIdx toIdx) input = .error .IndexOutOfBounds) ∧
    (fromIdx = toIdx → (input.length : Int) ≤ isizeMax →
      process (.Swap fromIdx toIdx) input = .ok input) := by
  have hp := process_of_ne_nil (.Swap fromIdx toIdx) input hne
  constructor
  · intro hft hoob
    rw [hp]
    by_cases hlen : (input.length : Int) ≤ isizeMax
    · have hcl : collectionLengthTryFrom input.length =
          .ok (input.length : Int) := by
        simp [collectionLengthTryFrom, hlen]
      rcases hfi : index_into (input.length : Int) fromIdx with e | i
      · have he := index_into_error_eq hfi
        subst he
        simp [processBody, hcl, hft, hfi]
      · rcases hoob with h1 | h1
        · exact absurd h1 (by simp [hfi])
        · simp [processBody, hcl, hft, hfi, h1]
    · have hcl : collectionLengthTryFrom input.length =
          .error .IndexOutOfBounds := by
        simp [collectionLengthTryFrom, hlen]
      simp [processBody, hcl]
  · intro hft hlen
    have hcl : collectionLengthTryFrom input.length =
        .ok (input.length : Int) := by
      simp [collectionLengthTryFrom, hlen]
    rw [hp]
    simp [processBody, hcl, hft, List.isEmpty_eq_false.mpr hne]

/-- Witness for C2 (amended): `Swap{from:5,to:0}` on `["a"]` fails with
`IndexOutOfBounds`. -/
theorem claim_C2_witness :
    process (.Swap 5 0) ["a"] = .error .IndexOutOfBounds :=
  (claim_C2_swap_amended ["a"] 5 0 (by decide)).1 (by decide)
    (Or.inl rfl)

/-- C6: for every non-empty input, `Cloned{mode,ops}` runs the nested
pipeline on a duplicate of the input and recombines on success —
`AppendResult` puts the original first, `PrependResult` puts the clone's
result first; a nested failure makes the whole operation fail with
`InnerOperationError` with no partial recombination.  The spec's concrete
`Cloned{ops:[Reverse]}` examples on `["a","b"]` are included. -/
theorem claim_C6_cloned_semantics (f : Pipeline) (input : List String)
    (hne : input ≠ []) :
    ((f input = none →
       ∀ mode, process (.Cloned mode f) input =
         .error .InnerOperationError) ∧
     (∀ v, f input = some v →
       process (.Cloned .AppendResult f) input = .ok (input ++ v) ∧
       process (.Cloned .PrependResult f) input = .ok (v ++ input))) ∧
    (process (.Cloned .AppendResult reversePipeline) ["a", "b"] =
       .ok ["a", "b", "b", "a"] ∧
     process (.Cloned .PrependResult reversePipeline) ["a", "b"] =
       .ok ["b", "a", "a", "b"]) := by
  refine ⟨⟨?_, ?_⟩, rfl, rfl⟩
  · intro hf mode
    rw [process_of_ne_nil _ _ hne]
    cases mode <;> simp [processBody, hf]
  · intro v hv
    constructor <;>
    · rw [process_of_ne_nil _ _ hne]
      simp [processBody, hv, hne]

/-- Witness for C6 at the spec's append example. -/
theorem claim_C6_witness :
    process (.Cloned .AppendResult reversePipeline) ["a", "b"] =
      .ok ["a", "b", "b", "a"] :=
  (claim_C6_cloned_semantics reversePipeline ["a", "b"] (by decide)).2.1

/-- C4: for every non-empty input, `Select(ops)` never propagates a nested
pipeline failure (elements whose nested run fails are silently dropped,
never aborting their siblings); succeeding elements contribute their
possibly multi-valued results concatenated in original order, and the only
possible failure is the shared `OutputNoValues` guard, which (given that
the pipeline driver only succeeds with non-empty sequences, the spec's
value-sequence invariant) fires exactly when every element is filtered
out. -/
theorem claim_C4_select_filter (f : Pipeline) (input : List String)
    (hne : input ≠ [])
    (hf : ∀ x r, f x = some r → r ≠ []) :
    (process (.Select f) input ≠ .error .InnerOperationError) ∧
    (process (.Select f) input =
      (let res := (input.filterMap fun e => f [e]).flatten
       if res.isEmpty then .error .OutputNoValuesError else .ok res)) ∧
    (process (.Select f) input = .error .OutputNoValuesError ↔
      ∀ e ∈ input, f [e] = none) := by
  have hmain : process (.Select f) input =
      (if ((input.filterMap fun e => f [e]).flatten).isEmpty
       then .error .OutputNoValuesError
       else .ok ((input.filterMap fun e => f [e]).flatten)) := by
    rw [process_of_ne_nil _ _ hne]
    rfl
  have hiff : (input.filterMap fun e => f [e]).flatten = [] ↔
      ∀ e ∈ input, f [e] = none := by
    constructor
    · intro hfl e he
      rcases hr : f [e] with _ | r
      · rfl
      · exfalso
        have hrmem : r ∈ input.filterMap fun e => f [e] :=
          List.mem_filterMap.mpr ⟨e, he, hr⟩
        exact hf [e] r hr (List.flatten_eq_nil_iff.mp hfl r hrmem)
    · intro hall
      have : (input.filterMap fun e => f [e]) = [] :=
        List.filterMap_eq_nil_iff.mpr hall
      simp [this]
  refine ⟨?_, hmain, ?_⟩
  · rw [hmain]
    split
    · intro hcontra
      exact absurd (Except.error.inj hcontra) (by decide)
    · simp
  · rw [hmain]
    constructor
    · intro heq
      by_cases hc : ((input.filterMap fun e => f [e]).flatten).isEmpty
      · exact hiff.mp (List.isEmpty_iff.mp hc)
      · rw [if_neg hc] at heq
        exact absurd heq (by simp)
    · intro hall
      have h0 : (input.filterMap fun e => f [e]).flatten = [] :=
        hiff.mpr hall
      simp [h0]

/-- Witness pipeline for C4: succeeds (with a non-empty result) exactly on
the singleton `["x"]`. -/
def selectWitnessFn : Pipeline :=
  fun l => if l = ["x"] then some ["x", "xx"] else none

/-- Witness for C4: on `["x","y"]`, the element `"y"` is filtered out
(its nested run fails) while `"x"` contributes its two-valued result. -/
theorem claim_C4_witness :
    process (.Select selectWitnessFn) ["x", "y"] = .ok ["x", "xx"] := by
  have hf : ∀ x r, selectWitnessFn x = some r → r ≠ [] := by
    intro x r hr
    by_cases hx : x = ["x"]
    · simp [selectWitnessFn, hx] at hr
      simp [← hr]
    · simp [selectWitnessFn, hx] at hr
  have h :=
    (claim_C4_select_filter selectWitnessFn ["x", "y"] (by decide) hf).2.1
  rw [h]
  rfl

/-- For a negative dividend that the positive divisor does not divide, the
truncating remainder is strictly between `-n` and `0`. -/
theorem tmod_neg_bounds {i n : Int} (hi : i < 0) (hn : 0 < n)
    (hnd : ¬ n ∣ i) : i.tmod n < 0 ∧ -n < i.tmod n := by
  have htne : i.tmod n ≠ 0 := fun h0 =>
    hnd (Int.dvd_iff_tmod_eq_zero.mpr h0)
  cases i with
  | ofNat m => exact absurd hi (Int.not_lt.mpr (Int.ofNat_nonneg m))
  | negSucc m =>
    cases n with
    | ofNat k =>
      have hk : 0 < k := Int.ofNat_pos.mp hn
      have hrep : (Int.negSucc m).tmod (Int.ofNat k) =
          -((((m + 1) % k : Nat)) : Int) := rfl
      have hmodlt : (m + 1) % k < k := Nat.mod_lt _ hk
      have hmodne : (m + 1) % k ≠ 0 := by
        intro h0
        apply htne
        rw [hrep, h0]
        simp
      have hpos : (0 : Int) < (((m + 1) % k : Nat) : Int) := by
        exact_mod_cast Nat.pos_of_ne_zero hmodne
      have hlt2 : ((((m + 1) % k : Nat)) : Int) < ((k : Nat) : Int) := by
        exact_mod_cast hmodlt
      constructor
      · rw [hrep]
        omega
      · show -((k : Nat) : Int) < (Int.negSucc m).tmod (Int.ofNat k)
        rw [hrep]
        omega
    | negSucc k =>
      exact absurd hn (Int.not_lt.mpr (Int.le_of_lt (Int.negSucc_lt_zero k)))

/-- Evaluation of `index_into` on a negative offset. -/
theorem index_into_neg_eval {n i : Int} (hinn : ¬ 0 ≤ i) :
    index_into n i =
      if n.toNat ≤ usizeOfIsize (i.tmod n)
      then .error .IndexOutOfBounds
      else .ok (usizeOfIsize (i.tmod n)) := by
  unfold index_into
  rw [if_neg hinn]

/-- C10: for a strictly negative offset `i` and a positive collection
length `n` (representable as `isize`), `index_into` succeeds exactly when
`i` is an integer multiple of `n`, resolving to position 0; otherwise the
truncating remainder is negative, its cast to the unsigned machine word is
at least `n`, and `index_into` fails with `IndexOutOfBounds`. -/
theorem claim_C10_negative_offsets (i n : Int) (hi : i < 0) (hn : 0 < n)
    (hmax : n ≤ isizeMax) :
    (index_into n i = .ok 0 ↔ n ∣ i) ∧
    (¬ n ∣ i →
      i.tmod n < 0 ∧ n.toNat ≤ usizeOfIsize (i.tmod n) ∧
      index_into n i = .error .IndexOutOfBounds) := by
  have hinn : ¬ 0 ≤ i := Int.not_le.mpr hi
  have hmaxn : n ≤ 2147483647 := by
    have hm : isizeMax = 2147483647 := by norm_num [isizeMax, isizeBits]
    omega
  by_cases hd : n ∣ i
  · have ht0 : i.tmod n = 0 := Int.tmod_eq_zero_of_dvd hd
    have hok : index_into n i = .ok 0 := by
      rw [index_into_neg_eval hinn, ht0]
      have hz : usizeOfIsize 0 = 0 := rfl
      rw [hz, if_neg (by omega : ¬ n.toNat ≤ 0)]
    exact ⟨⟨fun _ => hd, fun _ => hok⟩, fun hnd => absurd hd hnd⟩
  · obtain ⟨hlt, hgt⟩ := tmod_neg_bounds hi hn hd
    have hb : (2 : Int) ^ isizeBits = 4294967296 := by
      norm_num [isizeBits]
    have hcast : (usizeOfIsize (i.tmod n) : Int) =
        i.tmod n + 4294967296 := by
      unfold usizeOfIsize
      rw [hb]
      have h1 : (i.tmod n + 4294967296 * 1) % 4294967296 =
          i.tmod n % 4294967296 := Int.add_mul_emod_self_left ..
      have h2 : i.tmod n % 4294967296 = i.tmod n + 4294967296 := by
        rw [← h1, Int.mul_one]
        apply Int.emod_eq_of_lt <;> omega
      rw [h2, Int.toNat_of_nonneg (by omega)]
    have hle : n.toNat ≤ usizeOfIsize (i.tmod n) := by omega
    have herr : index_into n i = .error .IndexOutOfBounds := by
      rw [index_into_neg_eval hinn, if_pos hle]
    refine ⟨⟨fun hok => ?_, fun hdvd => absurd hdvd hd⟩,
      fun _ => ⟨hlt, hle, herr⟩⟩
    rw [herr] at hok
    exact absurd hok (by simp)

/-- Witness for C10: for `n = 5`, the multiple `-10` resolves to 0 while
the non-multiple `-3` is rejected. -/
theorem claim_C10_witness :
    index_into 5 (-10) = .ok 0 ∧
    index_into 5 (-3) = .error .IndexOutOfBounds := by
  have hdvd : (5 : Int) ∣ (-10 : Int) := ⟨-2, by decide⟩
  have hnd : ¬ (5 : Int) ∣ (-3 : Int) := by
    intro hdv
    have h0 := Int.tmod_eq_zero_of_dvd hdv
    exact absurd h0 (by decide)
  refine ⟨(claim_C10_negative_offsets (-10) 5 (by decide) (by decide)
      (by decide)).1.mpr hdvd,
    ((claim_C10_negative_offsets (-3) 5 (by decide) (by decide)
      (by decide)).2 hnd).2.2⟩

end ThreescaleStack
